import Mathlib

/-!
# Verification of the CLICalculator expression evaluator

Shallow embedding of `src/calculator.rs`: a shunting-yard tokenizer from an
infix expression string to an RPN token list, followed by a stack-machine
evaluator.  The Rust code computes with `f32`; the embedding uses exact
rationals (`ℚ`), so IEEE rounding is abstracted away, but every concrete
value appearing in the claims (small integers and short decimal literals,
and every intermediate result at those inputs) is exactly representable in
`f32`, where `f32` arithmetic agrees with `ℚ` arithmetic.  In particular the
`b == 0.0` division guard coincides with `b = 0` on `ℚ` (IEEE equality
identifies `-0.0` with `0.0`, and the only way the tokenizer produces a
zero is from a literal whose digits are all zeros, possibly negated).

The Rust tokenizer walks an index `i` over the character array and consults
`chars[i - 1]` (resp. `i == 0`) to decide whether a `'-'` is unary.  The
embedding `tokAux` instead carries the previously consumed character as a
`prev : Option Char` parameter (`none` exactly when `i == 0`), which is the
same information: every branch of the Rust loop advances `i` past the
characters it consumed, and `tokAux` recurses on the corresponding suffix
passing the last consumed character as `prev`.
-/

/-- Error taxonomy of `calculator.rs` (enum `CalculatorError`, lines 13-19). -/
inductive CalculatorError where
  | UnsupportedToken
  | MismatchedParantheses
  | InvalidExpression
  | InvalidDecimal
  | ZeroDivision
deriving DecidableEq, Repr

/-- RPN tokens (enum `RPNToken`, lines 3-6).  `f32` is modelled by `ℚ`. -/
inductive RPNToken where
  | Operation : Char → RPNToken
  | Number : ℚ → RPNToken
deriving DecidableEq, Repr

/-- Operator precedence (closure `precedence`, lines 84-90).  The source
returns `u8` values `0`, `1`, `2`; no arithmetic is done on them, so `Nat`
is a faithful carrier. -/
def precedence (op : Char) : Nat :=
  match op with
  | '+' | '-' => 1
  | '*' | '/' => 2
  | _ => 0

/-- The `is_unary` test of line 106:
`i == 0 || matches!(chars[i - 1], '(' | '+' | '-' | '*' | '/' | ' ')`,
with `prev = none` standing for `i == 0` and `prev = some p` for
`chars[i - 1] = p`. -/
def is_unary (prev : Option Char) : Bool :=
  match prev with
  | none => true
  | some p => p = '(' || p = '+' || p = '-' || p = '*' || p = '/' || p = ' '

/-- The lookahead `i + 1 < chars.len() && chars[i + 1].is_ascii_digit()` of
line 107, applied to the characters after the `'-'`. -/
def nextIsDigit (cs : List Char) : Bool :=
  match cs with
  | d :: _ => d.isDigit
  | [] => false

/-- The scanning loop of `parse_number` (lines 70-79): consume the maximal
run of ASCII digits and `'.'` characters, failing with `InvalidDecimal` on
a second `'.'`.  Returns the scanned run (the source's `num_str`, without
the optional sign). -/
def scanLit : List Char → Bool → Except CalculatorError (List Char)
  | [], _ => .ok []
  | c :: cs, dotted =>
    if c.isDigit then
      match scanLit cs dotted with
      | .ok s => .ok (c :: s)
      | .error e => .error e
    else if c = '.' then
      if dotted then .error .InvalidDecimal
      else
        match scanLit cs true with
        | .ok s => .ok (c :: s)
        | .error e => .error e
    else .ok []

/-- Value of a list of decimal digits, most significant first. -/
def natOfDigits (s : List Char) : Nat :=
  s.foldl (fun a c => a * 10 + (c.toNat - '0'.toNat)) 0

/-- Exact value of a scanned literal run (digits with at most one `'.'`):
the rational denoted by the decimal numeral.  Models the successful case of
Rust's `str::parse::<f32>` on `num_str` (line 80), with the final rounding
to `f32` abstracted away. -/
def litVal (s : List Char) : ℚ :=
  (natOfDigits (s.takeWhile (·.isDigit)) : ℚ) +
    match s.dropWhile (·.isDigit) with
    | '.' :: fd => (natOfDigits fd : ℚ) / (10 : ℚ) ^ fd.length
    | _ => 0

/-- `parse_number` (lines 57-81): scan the literal run, prepend the sign,
and parse the accumulated substring.  Over the alphabet the scanner admits
(an optional leading `'-'`, ASCII digits, at most one `'.'`),
`str::parse::<f32>` succeeds exactly when the run contains at least one
digit (a lone `'.'`, or an empty run, fails), and the parsed value is the
signed decimal value.  Also returns the scanned run, so the caller can
recover how many characters were consumed and what the last one was (the
source does this implicitly by advancing the shared index `i`). -/
def parse_number (neg : Bool) (cs : List Char) :
    Except CalculatorError (ℚ × List Char) :=
  match scanLit cs false with
  | .error e => .error e
  | .ok s =>
    if s.any (·.isDigit) then
      .ok ((if neg then -(litVal s) else litVal s), s)
    else .error .InvalidExpression

/-- The operator-stack pop loop of lines 123-129: pop and emit operators
whose precedence is `≥` that of the incoming operator `c`, stopping at the
first lower-precedence entry (an `'('` has precedence `0` and so always
stops the loop).  Returns the emitted tokens and the remaining stack. -/
def popOps (c : Char) : List Char → List RPNToken × List Char
  | [] => ([], [])
  | top :: rest =>
    if precedence c ≤ precedence top then
      let (em, ops) := popOps c rest
      (RPNToken.Operation top :: em, ops)
    else ([], top :: rest)

/-- The close-parenthesis loop of lines 134-139: pop and emit until an
`'('` is popped (and discarded).  NOTE: exactly as in the source, if the
stack empties without an `'('` the loop simply ends; no error is raised. -/
def popUntilParen : List Char → List RPNToken × List Char
  | [] => ([], [])
  | top :: rest =>
    if top = '(' then ([], rest)
    else
      let (em, ops) := popUntilParen rest
      (RPNToken.Operation top :: em, ops)

/-- The post-scan drain of lines 149-154: emit the remaining operators in
LIFO order, failing with `MismatchedParantheses` if a parenthesis marker is
left on the stack. -/
def drainOps : List Char → Except CalculatorError (List RPNToken)
  | [] => .ok []
  | op :: rest =>
    if op = '(' || op = ')' then .error .MismatchedParantheses
    else
      match drainOps rest with
      | .ok t => .ok (RPNToken.Operation op :: t)
      | .error e => .error e

/-- A stack of operator characters, as emitted tokens (LIFO order is the
list order: head of the stack first). -/
def opsToTokens (ops : List Char) : List RPNToken :=
  ops.map RPNToken.Operation

/-- The scan loop of `tokenizer` (lines 97-147) followed by the final drain
(lines 149-154).  `prev` carries the previously consumed character (see the
module comment); `ops` is the operator stack (head = top); the produced
token list is returned in output order. -/
def tokAux (prev : Option Char) (cs : List Char) (ops : List Char) :
    Except CalculatorError (List RPNToken) :=
  match cs with
  | [] => drainOps ops
  | c :: cs' =>
    if c.isWhitespace then tokAux (some c) cs' ops
    else if c = '-' && is_unary prev && nextIsDigit cs' then
      -- lines 105-113: unary minus; `i` moves past the `'-'` and
      -- `parse_number` consumes the literal run from `cs'`.
      match parse_number true cs' with
      | .error e => .error e
      | .ok (q, s) =>
        Except.map (fun t => RPNToken.Number q :: t)
          (tokAux (some (s.getLastD '-')) (cs'.drop s.length) ops)
    else if c.isDigit || c = '.' then
      -- lines 115-119: `parse_number` consumes the run starting at `c`.
      match parse_number false (c :: cs') with
      | .error e => .error e
      | .ok (q, s) =>
        Except.map (fun t => RPNToken.Number q :: t)
          (tokAux (some (s.getLastD c)) (cs'.drop (s.length - 1)) ops)
    else if c = '+' || c = '-' || c = '*' || c = '/' then
      -- lines 122-131
      let (em, ops') := popOps c ops
      Except.map (fun t => em ++ t) (tokAux (some c) cs' (c :: ops'))
    else if c = '(' then tokAux (some c) cs' ('(' :: ops)
    else if c = ')' then
      -- lines 133-140
      let (em, ops') := popUntilParen ops
      Except.map (fun t => em ++ t) (tokAux (some c) cs' ops')
    else .error .UnsupportedToken
termination_by cs.length
decreasing_by
  · simp
  · simp [List.length_drop]
    omega
  · simp [List.length_drop]
    omega
  · simp
  · simp
  · simp

/-- `tokenizer` (lines 83-157) on a character list. -/
def tokenizer (cs : List Char) : Except CalculatorError (List RPNToken) :=
  tokAux none cs []

/-- One step of the evaluation loop (lines 163-187) on the value stack
(head = top of the Rust `Vec`, i.e. the most recently pushed value). -/
def evalStep (stack : List ℚ) : RPNToken → Except CalculatorError (List ℚ)
  | .Number n => .ok (n :: stack)
  | .Operation op =>
    match stack with
    | b :: a :: rest =>
      match op with
      | '+' => .ok ((a + b) :: rest)
      | '-' => .ok ((a - b) :: rest)
      | '*' => .ok ((a * b) :: rest)
      | '/' => if b = 0 then .error .ZeroDivision else .ok ((a / b) :: rest)
      | _ => .ok (0 :: rest)  -- source: `unreachable!()`; never hit on tokenizer output
    | _ => .error .InvalidExpression

/-- The evaluation loop over the token list. -/
def evalLoop (stack : List ℚ) : List RPNToken → Except CalculatorError (List ℚ)
  | [] => .ok stack
  | t :: ts =>
    match evalStep stack t with
    | .ok st => evalLoop st ts
    | .error e => .error e

/-- Final part of `eval` (lines 189-193): `result.pop()` returns the most
recently pushed value if any, else the expression is invalid. -/
def evalRPN (ts : List RPNToken) : Except CalculatorError ℚ :=
  match evalLoop [] ts with
  | .error e => .error e
  | .ok stack =>
    match stack with
    | v :: _ => .ok v
    | [] => .error .InvalidExpression

/-- `Calculator::eval` (lines 159-194): tokenize, then run the RPN
evaluator.  `String.data` is the `expr.chars().collect()` of line 95. -/
def Calculator.eval (expr : String) : Except CalculatorError ℚ :=
  match tokenizer expr.data with
  | .error e => .error e
  | .ok ts => evalRPN ts

/-!
## Claim-side definitions

`claimUnaryCond` is written from the words of claim C6 (to be compared with
the tokenizer's own test); `Op`, `Expr` and the printer formalise
"well-formed infix expression" for claim C3: an expression string is
well-formed when it is the rendering of an expression tree, with
parentheses exactly where precedence requires them (minimal-parentheses
printing, with `*`,`/` binding tighter than `+`,`-` and equal-precedence
operators associating to the left).
-/

/-- Claim C6's side condition, from the claim's words: the `'-'` is the
first character of the expression (`prev = none`), or the immediately
preceding character is one of `( + - * /` or a space; and the following
character is an ASCII digit. -/
def claimUnaryCond (prev : Option Char) (next : Option Char) : Prop :=
  (prev = none ∨ prev ∈ [some '(', some '+', some '-', some '*', some '/', some ' ']) ∧
    ∃ d, next = some d ∧ d.isDigit

instance (prev next : Option Char) : Decidable (claimUnaryCond prev next) := by
  unfold claimUnaryCond
  exact inferInstance

/-- The four binary operators of the language, for claim C3. -/
inductive Op where
  | add
  | sub
  | mul
  | div
deriving DecidableEq, Repr

/-- Concrete character of an operator. -/
def Op.toChar : Op → Char
  | .add => '+'
  | .sub => '-'
  | .mul => '*'
  | .div => '/'

/-- Standard precedence: `*`,`/` bind tighter than `+`,`-`. -/
def Op.prec : Op → Nat
  | .add => 1
  | .sub => 1
  | .mul => 2
  | .div => 2

/-- Standard arithmetic meaning of an operator (exact, on `ℚ`). -/
def Op.apply : Op → ℚ → ℚ → ℚ
  | .add, a, b => a + b
  | .sub, a, b => a - b
  | .mul, a, b => a * b
  | .div, a, b => a / b

/-- Infix expression trees: numeric literals (kept as their character
runs) and binary operations. -/
inductive Expr where
  | lit (s : List Char)
  | bin (op : Op) (l r : Expr)
deriving DecidableEq, Repr

/-- A valid numeric literal: nonempty, over digits and `'.'`, with at most
one `'.'` and at least one digit. -/
def litOk (s : List Char) : Prop :=
  s ≠ [] ∧ (∀ c ∈ s, c.isDigit = true ∨ c = '.') ∧
    s.count '.' ≤ 1 ∧ ∃ c ∈ s, c.isDigit = true

/-- Well-formedness of an expression tree: every literal is valid. -/
def Expr.wf : Expr → Prop
  | .lit s => litOk s
  | .bin _ l r => l.wf ∧ r.wf

/-- Standard value of an expression tree. -/
def Expr.val : Expr → ℚ
  | .lit s => litVal s
  | .bin op l r => op.apply l.val r.val

/-- No division by zero anywhere in the tree (the divisor's standard value
is nonzero at every `div` node). -/
def Expr.divSafe : Expr → Prop
  | .lit _ => True
  | .bin op l r => l.divSafe ∧ r.divSafe ∧ (op = .div → r.val ≠ 0)

/-- Postorder (RPN) reading of the tree. -/
def Expr.rpn : Expr → List RPNToken
  | .lit s => [RPNToken.Number (litVal s)]
  | .bin op l r => l.rpn ++ r.rpn ++ [RPNToken.Operation op.toChar]

/-- Precedence at the root: literals never need parentheses. -/
def Expr.topPrec : Expr → Nat
  | .lit _ => 3
  | .bin op _ _ => op.prec

/-- Wrap a rendering in parentheses. -/
def parenthesize (s : List Char) : List Char :=
  '(' :: s ++ [')']

/-- Minimal-parentheses rendering: a left child is parenthesized when its
root binds strictly less tightly than the parent, a right child also when
it binds equally tightly (left-to-right associativity for equal
precedence). -/
def Expr.print : Expr → List Char
  | .lit s => s
  | .bin op l r =>
    (if l.topPrec < op.prec then parenthesize l.print else l.print) ++
      op.toChar ::
        (if r.topPrec ≤ op.prec then parenthesize r.print else r.print)

/-- Last character of the rendering (used as the `prev` character for
whatever follows the expression). -/
def Expr.lastCh : Expr → Char
  | .lit s => s.getLastD '0'
  | .bin op _ r => if r.topPrec ≤ op.prec then ')' else r.lastCh

/-- Operator characters still pending on the operator stack right after the
rendering of `e` has been scanned (top of stack first). -/
def Expr.pend : Expr → List Char
  | .lit _ => []
  | .bin op _ r =>
    (if r.topPrec ≤ op.prec then [] else r.pend) ++ [op.toChar]

/-- Tokens emitted to the output while the rendering of `e` is scanned
(the rest of `e.rpn` is still pending on the operator stack). -/
def Expr.emitted : Expr → List RPNToken
  | .lit s => [RPNToken.Number (litVal s)]
  | .bin op l r =>
    l.rpn ++ (if r.topPrec ≤ op.prec then r.rpn else r.emitted)

/-- Guard on the operator stack under which the scan of an expression whose
root precedence is `p` never pops an entry it did not itself push: the top
entry (if any) binds strictly less tightly than `p`. -/
def stackGuard (p : Nat) : List Char → Prop
  | [] => True
  | c :: _ => precedence c < p

/-- The character (if any) following the rendering must not extend a
trailing numeric literal. -/
def restOk : List Char → Prop
  | [] => True
  | c :: _ => ¬(c.isDigit = true ∨ c = '.')

/-! ## Helper lemmas -/

theorem Except.map_comp {α β γ ε : Type} (f : β → γ) (g : α → β)
    (x : Except ε α) :
    Except.map f (Except.map g x) = Except.map (fun a => f (g a)) x := by
  cases x <;> rfl

theorem opsToTokens_append (a b : List Char) :
    opsToTokens (a ++ b) = opsToTokens a ++ opsToTokens b := by
  simp [opsToTokens]

theorem getLastD_mem (l : List Char) (d : Char) (h : l ≠ []) :
    l.getLastD d ∈ l := by
  induction l generalizing d with
  | nil => exact absurd rfl h
  | cons c t ih =>
    cases t with
    | nil => simp [List.getLastD]
    | cons c₂ t₂ => simp [List.getLastD]

theorem getLastD_irrel (l : List Char) (a b : Char) (h : l ≠ []) :
    l.getLastD a = l.getLastD b := by
  induction l generalizing a b with
  | nil => exact absurd rfl h
  | cons c t ih =>
    cases t with
    | nil => simp [List.getLastD]
    | cons c₂ t₂ => simp [List.getLastD]

theorem Expr.emitted_append_pend (e : Expr) :
    e.emitted ++ opsToTokens e.pend = e.rpn := by
  induction e with
  | lit s => simp [Expr.emitted, Expr.pend, Expr.rpn, opsToTokens]
  | bin op l r ihl ihr =>
    by_cases h : r.topPrec ≤ op.prec
    · simp [Expr.emitted, Expr.pend, Expr.rpn, h, opsToTokens, List.append_assoc]
    · simp only [Expr.emitted, Expr.pend, Expr.rpn, if_neg h, opsToTokens_append,
        List.append_assoc]
      congr 1
      rw [← List.append_assoc, ihr]
      simp [opsToTokens]

theorem Op.prec_toChar (op : Op) : precedence op.toChar = op.prec := by
  cases op <;> rfl

theorem Op.one_le_prec (op : Op) : 1 ≤ op.prec := by
  cases op <;> simp [Op.prec]

theorem Expr.one_le_topPrec (e : Expr) : 1 ≤ e.topPrec := by
  cases e with
  | lit s => simp [Expr.topPrec]
  | bin op l r => simpa [Expr.topPrec] using op.one_le_prec

theorem Expr.pend_mem (e : Expr) :
    ∀ c ∈ e.pend, (∃ op : Op, c = op.toChar) ∧ e.topPrec ≤ precedence c := by
  induction e with
  | lit s => simp [Expr.pend]
  | bin op l r ihl ihr =>
    intro c hc
    by_cases h : r.topPrec ≤ op.prec
    · simp [Expr.pend, h] at hc
      subst hc
      exact ⟨⟨op, rfl⟩, by simp [Op.prec_toChar, Expr.topPrec]⟩
    · simp [Expr.pend, h] at hc
      rcases hc with hc | hc
      · rcases ihr c hc with ⟨hop, hprec⟩
        refine ⟨hop, ?_⟩
        show op.prec ≤ precedence c
        exact le_trans (le_of_lt (not_le.mp h)) hprec
      · subst hc
        exact ⟨⟨op, rfl⟩, by simp [Op.prec_toChar, Expr.topPrec]⟩

theorem Expr.lastCh_safe (e : Expr) (hwf : e.wf) :
    (e.lastCh).isDigit = true ∨ e.lastCh = '.' ∨ e.lastCh = ')' := by
  induction e with
  | lit s =>
    rcases hwf with ⟨hne, hall, -, -⟩
    have hmem : s.getLastD '0' ∈ s := getLastD_mem s '0' hne
    rcases hall _ hmem with hd | hdot
    · left; simpa [Expr.lastCh] using hd
    · right; left; simpa [Expr.lastCh] using hdot
  | bin op l r ihl ihr =>
    by_cases h : r.topPrec ≤ op.prec
    · right; right; simp [Expr.lastCh, h]
    · simpa [Expr.lastCh, h] using ihr hwf.2

theorem digit_ne (c : Char) (h : c.isDigit = true) (d : Char)
    (hd : d.isDigit = false) : c ≠ d := by
  intro e
  subst e
  rw [h] at hd
  cases hd

theorem digit_not_ws (c : Char) (h : c.isDigit = true) :
    c.isWhitespace = false := by
  cases hw : c.isWhitespace with
  | false => rfl
  | true =>
    exfalso
    simp [Char.isWhitespace] at hw
    have hw' : c = ' ' ∨ c = '\t' ∨ c = '\x0d' ∨ c = '\n' := by tauto
    rcases hw' with hw' | hw' | hw' | hw' <;> subst hw' <;>
      exact absurd h (by decide)

theorem popOps_flush (c : Char) (S O : List Char)
    (hS : ∀ s ∈ S, precedence c ≤ precedence s)
    (hO : stackGuard (precedence c) O) :
    popOps c (S ++ O) = (opsToTokens S, O) := by
  induction S with
  | nil =>
    cases O with
    | nil => rfl
    | cons o t =>
      have h1 : ¬ precedence c ≤ precedence o := not_le.mpr hO
      simp [popOps, h1, opsToTokens]
  | cons s S' ih =>
    have h1 : precedence c ≤ precedence s := hS s (by simp)
    simp [popOps, h1, ih (fun x hx => hS x (List.mem_cons_of_mem s hx)),
      opsToTokens]

theorem popUntilParen_flush (S O : List Char) (hS : ∀ s ∈ S, s ≠ '(') :
    popUntilParen (S ++ '(' :: O) = (opsToTokens S, O) := by
  induction S with
  | nil => simp [popUntilParen, opsToTokens]
  | cons s S' ih =>
    have h1 : s ≠ '(' := hS s (by simp)
    simp [popUntilParen, h1, ih (fun x hx => hS x (List.mem_cons_of_mem s hx)),
      opsToTokens]

theorem drainOps_ok (ops : List Char) (h : ∀ c ∈ ops, c ≠ '(' ∧ c ≠ ')') :
    drainOps ops = .ok (opsToTokens ops) := by
  induction ops with
  | nil => rfl
  | cons o t ih =>
    have h1 := h o (by simp)
    simp [drainOps, h1.1, h1.2, ih (fun x hx => h x (List.mem_cons_of_mem o hx)),
      opsToTokens]

theorem scanLit_run (s rest : List Char) (dotted : Bool)
    (hall : ∀ c ∈ s, c.isDigit = true ∨ c = '.')
    (hdots : s.count '.' + (if dotted then 1 else 0) ≤ 1)
    (hrest : restOk rest) :
    scanLit (s ++ rest) dotted = .ok s := by
  induction s generalizing dotted with
  | nil =>
    cases rest with
    | nil => rfl
    | cons c t =>
      simp only [restOk] at hrest
      push_neg at hrest
      simp [scanLit, hrest.1, hrest.2]
  | cons c s' ih =>
    rcases hall c (by simp) with hd | hdot
    · have hnd : c ≠ '.' := digit_ne c hd '.' (by decide)
      have hC : (c :: s').count '.' = s'.count '.' := by
        simp [List.count_cons, hnd, Ne.symm hnd]
      rw [hC] at hdots
      simp [scanLit, hd,
        ih dotted (fun x hx => hall x (List.mem_cons_of_mem c hx)) hdots]
    · subst hdot
      have hC : ('.' :: s').count '.' = s'.count '.' + 1 := by
        simp [List.count_cons]
      rw [hC] at hdots
      have hdf : dotted = false := by
        cases dotted with
        | false => rfl
        | true => exfalso; simp at hdots
      subst hdf
      have hcount : s'.count '.' + (if true then 1 else 0) ≤ 1 := by
        simp at hdots ⊢
        omega
      simp [scanLit,
        ih true (fun x hx => hall x (List.mem_cons_of_mem '.' hx)) hcount]

theorem parse_number_run (neg : Bool) (s rest : List Char) (h : litOk s)
    (hrest : restOk rest) :
    parse_number neg (s ++ rest) =
      .ok ((if neg then -(litVal s) else litVal s), s) := by
  obtain ⟨hne, hall, hdots, hdig⟩ := h
  have hscan := scanLit_run s rest false hall (by simpa using hdots) hrest
  have hany : s.any (·.isDigit) = true := by
    rw [List.any_eq_true]
    simpa using hdig
  simp [parse_number, hscan, hany]

theorem getLast?getD_irrel (l : List Char) (a b : Char) (h : l ≠ []) :
    l.getLast?.getD a = l.getLast?.getD b := by
  cases l with
  | nil => exact absurd rfl h
  | cons c t =>
    have h2 : (c :: t).getLast? = some ((c :: t).getLast (by simp)) := by
      simp [List.getLast?_eq_getLast]
    rw [h2]
    rfl

theorem tokAux_lit (prev : Option Char) (s rest ops : List Char)
    (h : litOk s) (hrest : restOk rest) :
    tokAux prev (s ++ rest) ops =
      Except.map (fun t => RPNToken.Number (litVal s) :: t)
        (tokAux (some (s.getLastD '0')) rest ops) := by
  obtain ⟨hne, hall, hdots, hdig⟩ := h
  cases s with
  | nil => exact absurd rfl hne
  | cons c s' =>
    have hp : parse_number false (c :: (s' ++ rest)) =
        Except.ok (litVal (c :: s'), c :: s') := by
      simpa using parse_number_run false (c :: s') rest ⟨by simp, hall, hdots, hdig⟩ hrest
    have hdrop : (s' ++ rest).drop ((c :: s').length - 1) = rest := by
      simp [List.drop_left]
    have hlast : (c :: s').getLast?.getD c = (c :: s').getLast?.getD '0' :=
      getLast?getD_irrel _ _ _ (by simp)
    rcases hall c (by simp) with hd | hdot
    · have h1 : c.isWhitespace = false := digit_not_ws c hd
      have h2 : c ≠ '-' := digit_ne c hd '-' (by decide)
      rw [tokAux.eq_def]
      simp only [List.cons_append]
      simp [h1, h2, hd, hp, hdrop, hlast]
    · subst hdot
      rw [tokAux.eq_def]
      simp only [List.cons_append]
      simp only [hp]
      simp [hdrop, hlast]

theorem tokAux_opStep (prev : Option Char) (c : Char) (cs ops : List Char)
    (hc : ∃ op : Op, c = op.toChar) (hu : is_unary prev = false) :
    tokAux prev (c :: cs) ops =
      Except.map (fun t => (popOps c ops).1 ++ t)
        (tokAux (some c) cs (c :: (popOps c ops).2)) := by
  obtain ⟨op, rfl⟩ := hc
  cases op <;>
    · rw [tokAux.eq_def]
      simp [hu, Op.toChar]

theorem tokAux_lparen (prev : Option Char) (cs ops : List Char) :
    tokAux prev ('(' :: cs) ops = tokAux (some '(') cs ('(' :: ops) := by
  rw [tokAux.eq_def]
  simp

theorem tokAux_rparen (prev : Option Char) (cs ops : List Char) :
    tokAux prev (')' :: cs) ops =
      Except.map (fun t => (popUntilParen ops).1 ++ t)
        (tokAux (some ')') cs (popUntilParen ops).2) := by
  rw [tokAux.eq_def]
  simp

theorem stackGuard_mono (p q : Nat) (O : List Char) (hpq : p ≤ q)
    (h : stackGuard p O) : stackGuard q O := by
  cases O with
  | nil => trivial
  | cons c t =>
    simp only [stackGuard] at h ⊢
    omega

theorem safe_not_unary (c : Char)
    (h : c.isDigit = true ∨ c = '.' ∨ c = ')') : is_unary (some c) = false := by
  rcases h with hd | h | h
  · have h1 := digit_ne c hd '(' (by decide)
    have h2 := digit_ne c hd '+' (by decide)
    have h3 := digit_ne c hd '-' (by decide)
    have h4 := digit_ne c hd '*' (by decide)
    have h5 := digit_ne c hd '/' (by decide)
    have h6 := digit_ne c hd ' ' (by decide)
    simp [is_unary, h1, h2, h3, h4, h5, h6]
  · subst h; decide
  · subst h; decide

theorem opChar_restOk (op : Op) (xs : List Char) :
    restOk (op.toChar :: xs) := by
  cases op <;> simp [restOk, Op.toChar]

theorem opChar_ne_lparen (op : Op) : op.toChar ≠ '(' := by
  cases op <;> decide

theorem opChar_ne_rparen (op : Op) : op.toChar ≠ ')' := by
  cases op <;> decide

theorem Except.map_congr_fun {α β ε : Type} (f g : α → β) (x : Except ε α)
    (h : ∀ a, f a = g a) : Except.map f x = Except.map g x := by
  cases x <;> simp [Except.map, h]

/-- Main tokenizer lemma: scanning the rendering of a well-formed
expression `e` followed by `rest`, from an operator stack whose top (if
any) binds less tightly than `e`'s root, emits `e.emitted` and continues
scanning `rest` with `e.pend` pushed on the stack. -/
theorem tokAux_print (e : Expr) (hwf : e.wf) :
    ∀ (prev : Option Char) (rest O : List Char),
      stackGuard e.topPrec O → restOk rest →
      tokAux prev (e.print ++ rest) O =
        Except.map (fun t => e.emitted ++ t)
          (tokAux (some e.lastCh) rest (e.pend ++ O)) := by
  induction e with
  | lit s =>
    intro prev rest O hO hrest
    rw [show (Expr.lit s).print = s from rfl, tokAux_lit prev s rest O hwf hrest]
    simp [Expr.emitted, Expr.pend, Expr.lastCh]
  | bin op l r ihl ihr =>
    intro prev rest O hO hrest
    obtain ⟨hwl, hwr⟩ := hwf
    have hOguard : stackGuard op.prec O := by simpa [Expr.topPrec] using hO
    have hguardO' : stackGuard (precedence op.toChar) O := by
      rw [Op.prec_toChar]; exact hOguard
    have hpopO : popOps op.toChar O = ([], O) := by
      have := popOps_flush op.toChar [] O (by simp) hguardO'
      simpa [opsToTokens] using this
    have hL : tokAux prev ((Expr.bin op l r).print ++ rest) O =
        Except.map (fun t => l.rpn ++ t)
          (tokAux (some op.toChar)
            ((if r.topPrec ≤ op.prec then '(' :: (r.print ++ [')']) else r.print) ++ rest)
            (op.toChar :: O)) := by
      by_cases hl : l.topPrec < op.prec
      · -- parenthesized left child
        simp only [Expr.print, if_pos hl, parenthesize, List.append_assoc,
          List.cons_append, List.singleton_append, List.nil_append]
        rw [tokAux_lparen]
        rw [ihl hwl (some '(')
          (')' :: op.toChar ::
            ((if r.topPrec ≤ op.prec then '(' :: (r.print ++ [')']) else r.print) ++ rest))
          ('(' :: O)
          (by simpa [stackGuard, precedence] using l.one_le_topPrec)
          (by simp [restOk])]
        rw [tokAux_rparen]
        rw [popUntilParen_flush l.pend O
          (fun s hs => by
            rcases (l.pend_mem s hs).1 with ⟨op', rfl⟩
            exact opChar_ne_lparen op')]
        rw [tokAux_opStep (some ')') op.toChar _ _ ⟨op, rfl⟩ (by decide)]
        rw [hpopO]
        rw [Except.map_comp, Except.map_comp]
        apply Except.map_congr_fun
        intro a
        show l.emitted ++ (opsToTokens l.pend ++ ([] ++ a)) = l.rpn ++ a
        rw [List.nil_append, ← List.append_assoc, Expr.emitted_append_pend]
      · -- bare left child
        simp only [Expr.print, if_neg hl, parenthesize, List.append_assoc,
          List.cons_append, List.singleton_append, List.nil_append]
        rw [ihl hwl prev
          (op.toChar ::
            ((if r.topPrec ≤ op.prec then '(' :: (r.print ++ [')']) else r.print) ++ rest))
          O
          (stackGuard_mono op.prec l.topPrec O (not_lt.mp hl) hOguard)
          (opChar_restOk op _)]
        rw [tokAux_opStep (some l.lastCh) op.toChar _ _ ⟨op, rfl⟩
          (safe_not_unary _ (l.lastCh_safe hwl))]
        rw [popOps_flush op.toChar l.pend O
          (fun s hs => by
            rw [Op.prec_toChar]
            exact le_trans (not_lt.mp hl) (l.pend_mem s hs).2)
          hguardO']
        rw [Except.map_comp]
        apply Except.map_congr_fun
        intro a
        show l.emitted ++ (opsToTokens l.pend ++ a) = l.rpn ++ a
        rw [← List.append_assoc, Expr.emitted_append_pend]
    rw [hL]
    by_cases hr : r.topPrec ≤ op.prec
    · -- parenthesized right child
      rw [if_pos hr]
      simp only [List.append_assoc, List.cons_append, List.singleton_append,
        List.nil_append]
      rw [tokAux_lparen]
      rw [ihr hwr (some '(') (')' :: rest) ('(' :: op.toChar :: O)
        (by simpa [stackGuard, precedence] using r.one_le_topPrec)
        (by simp [restOk])]
      rw [tokAux_rparen]
      rw [popUntilParen_flush r.pend (op.toChar :: O)
        (fun s hs => by
          rcases (r.pend_mem s hs).1 with ⟨op', rfl⟩
          exact opChar_ne_lparen op')]
      simp only [Expr.emitted, Expr.pend, Expr.lastCh, if_pos hr,
        List.nil_append, List.singleton_append, List.cons_append]
      rw [Except.map_comp, Except.map_comp]
      apply Except.map_congr_fun
      intro a
      rw [← List.append_assoc r.emitted, Expr.emitted_append_pend]
      simp only [List.append_assoc]
    · -- bare right child
      rw [if_neg hr]
      rw [ihr hwr (some op.toChar) rest (op.toChar :: O)
        (by simp only [stackGuard, Op.prec_toChar]; exact not_le.mp hr)
        hrest]
      simp only [Expr.emitted, Expr.pend, Expr.lastCh, if_neg hr,
        List.append_assoc, List.singleton_append, List.cons_append]
      rw [Except.map_comp]
      apply Except.map_congr_fun
      intro a
      simp only [List.append_assoc]

instance exceptDecEq {ε α : Type} [DecidableEq ε] [DecidableEq α] :
    DecidableEq (Except ε α) := fun x y =>
  match x, y with
  | .ok a, .ok b =>
    if h : a = b then isTrue (by rw [h])
    else isFalse (fun he => h (Except.ok.inj he))
  | .error a, .error b =>
    if h : a = b then isTrue (by rw [h])
    else isFalse (fun he => h (Except.error.inj he))
  | .ok _, .error _ => isFalse (fun he => Except.noConfusion he)
  | .error _, .ok _ => isFalse (fun he => Except.noConfusion he)

instance (s : List Char) : Decidable (litOk s) := by
  unfold litOk
  exact inferInstance

instance Expr.decWf : (e : Expr) → Decidable e.wf
  | .lit s => inferInstanceAs (Decidable (litOk s))
  | .bin _ l r =>
    haveI := Expr.decWf l
    haveI := Expr.decWf r
    inferInstanceAs (Decidable (l.wf ∧ r.wf))

instance Expr.decDivSafe : (e : Expr) → Decidable e.divSafe
  | .lit _ => inferInstanceAs (Decidable True)
  | .bin op l r =>
    haveI := Expr.decDivSafe l
    haveI := Expr.decDivSafe r
    inferInstanceAs (Decidable (l.divSafe ∧ r.divSafe ∧ (op = .div → r.val ≠ 0)))

theorem tokAux_nil (prev : Option Char) (ops : List Char) :
    tokAux prev [] ops = drainOps ops := by
  rw [tokAux.eq_def]

theorem tokenizer_print (e : Expr) (hwf : e.wf) :
    tokenizer e.print = .ok e.rpn := by
  have h := tokAux_print e hwf none [] [] (by cases e <;> trivial) trivial
  simp only [List.append_nil] at h
  rw [tokenizer, h, tokAux_nil]
  rw [drainOps_ok e.pend
    (fun c hc => by
      rcases (e.pend_mem c hc).1 with ⟨op', rfl⟩
      exact ⟨opChar_ne_lparen op', opChar_ne_rparen op'⟩)]
  simp only [Except.map]
  rw [Expr.emitted_append_pend]

theorem evalLoop_append (st : List ℚ) (ts₁ ts₂ : List RPNToken) :
    evalLoop st (ts₁ ++ ts₂) =
      match evalLoop st ts₁ with
      | .ok st' => evalLoop st' ts₂
      | .error e => .error e := by
  induction ts₁ generalizing st with
  | nil => rfl
  | cons t ts ih =>
    simp only [List.cons_append, evalLoop]
    cases evalStep st t with
    | ok st' => exact ih st'
    | error e => rfl

theorem evalLoop_rpn (e : Expr) (hds : e.divSafe) :
    ∀ st : List ℚ, evalLoop st e.rpn = .ok (e.val :: st) := by
  induction e with
  | lit s =>
    intro st
    simp [Expr.rpn, evalLoop, evalStep, Expr.val]
  | bin op l r ihl ihr =>
    intro st
    obtain ⟨hdl, hdr, hdiv⟩ := hds
    rw [Expr.rpn, List.append_assoc, evalLoop_append, ihl hdl]
    show evalLoop (l.val :: st) (r.rpn ++ [RPNToken.Operation op.toChar]) = _
    rw [evalLoop_append, ihr hdr]
    show evalLoop (r.val :: l.val :: st) [RPNToken.Operation op.toChar] = _
    cases op with
    | add => simp [evalLoop, evalStep, Op.toChar, Expr.val, Op.apply]
    | sub => simp [evalLoop, evalStep, Op.toChar, Expr.val, Op.apply]
    | mul => simp [evalLoop, evalStep, Op.toChar, Expr.val, Op.apply]
    | div =>
      have hz : r.val ≠ 0 := hdiv rfl
      simp [evalLoop, evalStep, Op.toChar, Expr.val, Op.apply, hz]

theorem evalRPN_rpn (e : Expr) (hds : e.divSafe) :
    evalRPN e.rpn = .ok e.val := by
  rw [evalRPN, evalLoop_rpn e hds []]


theorem claimUnary_iff (prev : Option Char) (cs : List Char) :
    claimUnaryCond prev cs.head? ↔ (is_unary prev && nextIsDigit cs) = true := by
  cases prev with
  | none =>
    cases cs with
    | nil => simp [claimUnaryCond, is_unary, nextIsDigit]
    | cons c t => simp [claimUnaryCond, is_unary, nextIsDigit]
  | some p =>
    cases cs with
    | nil => simp [claimUnaryCond, is_unary, nextIsDigit]
    | cons c t =>
      simp [claimUnaryCond, is_unary, nextIsDigit]
      tauto

theorem scanLit_second_dot (s rest : List Char)
    (h : ∀ c ∈ s, c.isDigit = true) :
    scanLit (s ++ '.' :: rest) true = .error .InvalidDecimal := by
  induction s with
  | nil => simp [scanLit]
  | cons c t ih =>
    have hc := h c (by simp)
    have hnd : c ≠ '.' := digit_ne c hc '.' (by decide)
    simp [scanLit, hc, ih (fun x hx => h x (List.mem_cons_of_mem c hx))]

theorem popUntilParen_no_paren (ops : List Char) (h : '(' ∉ ops) :
    popUntilParen ops = (opsToTokens ops, []) := by
  induction ops with
  | nil => rfl
  | cons o t ih =>
    have ho : o ≠ '(' := fun e => h (e ▸ List.mem_cons_self o t)
    have ht : '(' ∉ t := fun m => h (List.mem_cons_of_mem o m)
    simp [popUntilParen, ho, ih ht, opsToTokens]

theorem drainOps_paren (ops : List Char) (h : '(' ∈ ops ∨ ')' ∈ ops) :
    drainOps ops = .error .MismatchedParantheses := by
  induction ops with
  | nil => simp at h
  | cons o t ih =>
    by_cases ho : o = '(' ∨ o = ')'
    · rcases ho with rfl | rfl <;> simp [drainOps]
    · push_neg at ho
      have ht : '(' ∈ t ∨ ')' ∈ t := by
        rcases h with h | h
        · rcases List.mem_cons.mp h with rfl | h
          · exact absurd rfl ho.1
          · exact Or.inl h
        · rcases List.mem_cons.mp h with rfl | h
          · exact absurd rfl ho.2
          · exact Or.inr h
      simp [drainOps, ho.1, ho.2, ih ht]

theorem tokAux_space (prev : Option Char) (cs ops : List Char) :
    tokAux prev (' ' :: cs) ops = tokAux (some ' ') cs ops := by
  rw [tokAux.eq_def]
  simp

theorem tokAux_prev_congr (prev prev' : Option Char) (cs ops : List Char)
    (h : is_unary prev = is_unary prev') :
    tokAux prev cs ops = tokAux prev' cs ops := by
  cases cs with
  | nil => rw [tokAux_nil, tokAux_nil]
  | cons c cs' =>
    conv_lhs => rw [tokAux.eq_def]
    conv_rhs => rw [tokAux.eq_def]
    rw [h]

/-!
## Claims
-/

/-- Claim C1 counterexample: on `"1+2)"` — a `')'` scanned while the
operator stack holds no `'('` — `eval` does not fail with
`MismatchedParantheses`; it returns `Ok(3.0)`. -/
theorem c1_unmatched_close_paren_counterexample :
    Calculator.eval "1+2)" = Except.ok 3 ∧
      Calculator.eval "1+2)" ≠ Except.error CalculatorError.MismatchedParantheses := by
  have h : Calculator.eval "1+2)" = Except.ok 3 := by
    simp [Calculator.eval, tokenizer, tokAux, parse_number, scanLit, litVal,
      natOfDigits, evalRPN, evalLoop, evalStep, drainOps, popOps, popUntilParen,
      precedence, is_unary, nextIsDigit, Except.map]
    norm_num
  exact ⟨h, by rw [h]; simp⟩

/-- Claim C1 (amended): when a `')'` is scanned while the operator stack
holds no `'('`, the close-parenthesis loop pops and emits the entire
operator stack and the scan continues with no error; in particular
`eval("1+2)") = Ok(3.0)`. -/
theorem c1_unmatched_close_paren_amended :
    (∀ ops : List Char, '(' ∉ ops → popUntilParen ops = (opsToTokens ops, [])) ∧
      Calculator.eval "1+2)" = Except.ok 3 := by
  refine ⟨popUntilParen_no_paren, ?_⟩
  simp [Calculator.eval, tokenizer, tokAux, parse_number, scanLit, litVal,
    natOfDigits, evalRPN, evalLoop, evalStep, drainOps, popOps, popUntilParen,
    precedence, is_unary, nextIsDigit, Except.map]
  norm_num

/-- Witness for the amended claim C1, at the stack `['+']` left by
scanning `"1+2"`. -/
theorem c1_unmatched_close_paren_witness :
    '(' ∉ ['+'] ∧ popUntilParen ['+'] = (opsToTokens ['+'], []) :=
  ⟨by decide, c1_unmatched_close_paren_amended.1 ['+'] (by decide)⟩

/-- Claim C2 counterexample: inserting a space before the `'-'` of
`"1-2"` (not inside a numeral) changes the result: `"1-2"` evaluates to
`Ok(-1.0)` but `"1 -2"` evaluates to `Ok(-2.0)`. -/
theorem c2_whitespace_invariance_counterexample :
    Calculator.eval "1 -2" ≠ Calculator.eval "1-2" ∧
      Calculator.eval "1-2" = Except.ok (-1) ∧
      Calculator.eval "1 -2" = Except.ok (-2) := by
  have h1 : Calculator.eval "1-2" = Except.ok (-1) := by
    simp [Calculator.eval, tokenizer, tokAux, parse_number, scanLit, litVal,
      natOfDigits, evalRPN, evalLoop, evalStep, drainOps, popOps, popUntilParen,
      precedence, is_unary, nextIsDigit, Except.map]
    norm_num
  have h2 : Calculator.eval "1 -2" = Except.ok (-2) := by
    simp [Calculator.eval, tokenizer, tokAux, parse_number, scanLit, litVal,
      natOfDigits, evalRPN, evalLoop, evalStep, drainOps, popOps, popUntilParen,
      precedence, is_unary, nextIsDigit, Except.map]
  refine ⟨?_, h1, h2⟩
  rw [h1, h2]
  intro h
  have := Except.ok.inj h
  norm_num at this

/-- Claim C2 (amended): whitespace invariance fails.  What holds instead:
a scanned space is skipped, influencing the scan only as the remembered
previous character that the unary-minus test consults, and two scans of
the same remaining input whose previous characters agree on that test
agree entirely — so an inserted or removed space can change the result
only by flipping a `'-'` between binary subtraction and a literal sign.
A space inserted before a `'-'` whose next character is a digit flips
that test: `"1-2"` and `"1 - 2"` both evaluate to `Ok(-1.0)`, but
`"1 -2"` evaluates to `Ok(-2.0)`. -/
theorem c2_whitespace_invariance_amended :
    (∀ (prev : Option Char) (cs ops : List Char),
        tokAux prev (' ' :: cs) ops = tokAux (some ' ') cs ops) ∧
      (∀ (prev prev' : Option Char) (cs ops : List Char),
        is_unary prev = is_unary prev' →
        tokAux prev cs ops = tokAux prev' cs ops) ∧
      Calculator.eval "1-2" = Except.ok (-1) ∧
      Calculator.eval "1 - 2" = Except.ok (-1) ∧
      Calculator.eval "1 -2" = Except.ok (-2) := by
  refine ⟨tokAux_space, tokAux_prev_congr, ?_, ?_, ?_⟩ <;>
    · simp [Calculator.eval, tokenizer, tokAux, parse_number, scanLit, litVal,
        natOfDigits, evalRPN, evalLoop, evalStep, drainOps, popOps, popUntilParen,
        precedence, is_unary, nextIsDigit, Except.map]
      try norm_num

/-- Witness for the amended claim C2: the previous characters `'1'` and
`'2'` agree on the unary-minus test (both make it false), so the scans of
the remaining input `"-2"` agree. -/
theorem c2_whitespace_invariance_amended_witness :
    is_unary (some '1') = is_unary (some '2') ∧
      tokAux (some '1') ['-', '2'] [] = tokAux (some '2') ['-', '2'] [] :=
  ⟨by decide,
    c2_whitespace_invariance_amended.2.1 (some '1') (some '2') ['-', '2'] []
      (by decide)⟩

/-- Claim C3: for every well-formed infix expression — the
minimal-parentheses rendering `e.print` of a well-formed expression tree
`e`, which fixes `*`,`/` tighter than `+`,`-` and left-to-right
associativity for equal precedence — whose evaluation never divides by
zero, `eval` returns the standard arithmetic value `e.val`. -/
theorem c3_standard_infix_semantics (e : Expr) (s : String)
    (hwf : e.wf) (hds : e.divSafe) (hs : s.data = e.print) :
    Calculator.eval s = Except.ok e.val := by
  rw [Calculator.eval, hs, tokenizer_print e hwf]
  exact evalRPN_rpn e hds

/-- Witness for claim C3 at its three quoted inputs:
`eval("2+3*4") = Ok(14.0)`, `eval("(2+3)*4") = Ok(20.0)`,
`eval("10/2/5") = Ok(1.0)`. -/
theorem c3_standard_infix_semantics_witness :
    Calculator.eval "2+3*4" = Except.ok 14 ∧
      Calculator.eval "(2+3)*4" = Except.ok 20 ∧
      Calculator.eval "10/2/5" = Except.ok 1 := by
  refine ⟨?_, ?_, ?_⟩
  · have h := c3_standard_infix_semantics
      (Expr.bin .add (.lit ['2']) (.bin .mul (.lit ['3']) (.lit ['4'])))
      "2+3*4" (by decide)
      ⟨trivial, ⟨trivial, trivial, fun hc => Op.noConfusion hc⟩,
        fun hc => Op.noConfusion hc⟩
      (by decide)
    rw [h]
    exact congrArg Except.ok
      (by simp [Expr.val, Op.apply, litVal, natOfDigits]; norm_num)
  · have h := c3_standard_infix_semantics
      (Expr.bin .mul (.bin .add (.lit ['2']) (.lit ['3'])) (.lit ['4']))
      "(2+3)*4" (by decide)
      ⟨⟨trivial, trivial, fun hc => Op.noConfusion hc⟩, trivial,
        fun hc => Op.noConfusion hc⟩
      (by decide)
    rw [h]
    exact congrArg Except.ok
      (by simp [Expr.val, Op.apply, litVal, natOfDigits]; norm_num)
  · have hds :
        (Expr.bin .div (.bin .div (.lit ['1','0']) (.lit ['2'])) (.lit ['5'])).divSafe := by
      refine ⟨⟨trivial, trivial, fun _ => ?_⟩, trivial, fun _ => ?_⟩ <;>
        · simp [Expr.val, Op.apply, litVal, natOfDigits]
    have h := c3_standard_infix_semantics
      (Expr.bin .div (.bin .div (.lit ['1','0']) (.lit ['2'])) (.lit ['5']))
      "10/2/5" (by decide) hds (by decide)
    rw [h]
    exact congrArg Except.ok
      (by simp [Expr.val, Op.apply, litVal, natOfDigits]; norm_num)

/-- Claim C4: applying `'/'` when the divisor operand `b` (the more
recently pushed value, i.e. the stack top) equals zero fails with
`ZeroDivision` — no infinity or NaN is ever produced (the step returns an
error, not a value); in particular `eval("5/0")` fails with
`ZeroDivision`. -/
theorem c4_zero_division_guard :
    (∀ (a b : ℚ) (st : List ℚ), b = 0 →
        evalStep (b :: a :: st) (RPNToken.Operation '/') =
          Except.error CalculatorError.ZeroDivision) ∧
      Calculator.eval "5/0" = Except.error CalculatorError.ZeroDivision := by
  constructor
  · intro a b st hb
    subst hb
    simp [evalStep]
  · simp [Calculator.eval, tokenizer, tokAux, parse_number, scanLit, litVal,
      natOfDigits, evalRPN, evalLoop, evalStep, drainOps, popOps, popUntilParen,
      precedence, is_unary, nextIsDigit, Except.map]

/-- Witness for claim C4 at `a = 5`, `b = 0`, empty remaining stack. -/
theorem c4_zero_division_guard_witness :
    (0 : ℚ) = 0 ∧
      evalStep [(0 : ℚ), 5] (RPNToken.Operation '/') =
        Except.error CalculatorError.ZeroDivision :=
  ⟨rfl, c4_zero_division_guard.1 5 0 [] rfl⟩

/-- Claim C5: an `Operation` token reached with fewer than two stacked
values fails with `InvalidExpression`, and an empty value stack after all
tokens are consumed also fails with `InvalidExpression`; in particular
`eval("1+")` and `eval("")` (whose token sequence is empty) both fail with
`InvalidExpression`. -/
theorem c5_stack_underflow_invalid_expression :
    (∀ (op : Char) (st : List ℚ), st.length < 2 →
        evalStep st (RPNToken.Operation op) =
          Except.error CalculatorError.InvalidExpression) ∧
      evalRPN [] = Except.error CalculatorError.InvalidExpression ∧
      tokenizer [] = Except.ok [] ∧
      Calculator.eval "1+" = Except.error CalculatorError.InvalidExpression ∧
      Calculator.eval "" = Except.error CalculatorError.InvalidExpression := by
  refine ⟨?_, rfl, by rw [tokenizer, tokAux_nil]; rfl, ?_, ?_⟩
  · intro op st h
    match st with
    | [] => rfl
    | [x] => rfl
    | a :: b :: t =>
      exfalso
      rw [List.length_cons, List.length_cons] at h
      omega
  · simp [Calculator.eval, tokenizer, tokAux, parse_number, scanLit, litVal,
      natOfDigits, evalRPN, evalLoop, evalStep, drainOps, popOps, popUntilParen,
      precedence, is_unary, nextIsDigit, Except.map]
  · simp [Calculator.eval, tokenizer, tokAux, parse_number, scanLit, litVal,
      natOfDigits, evalRPN, evalLoop, evalStep, drainOps, popOps, popUntilParen,
      precedence, is_unary, nextIsDigit, Except.map, String.data]

/-- Witness for claim C5 at the one-element stack `[1]`. -/
theorem c5_stack_underflow_witness :
    [(1 : ℚ)].length < 2 ∧
      evalStep [(1 : ℚ)] (RPNToken.Operation '+') =
        Except.error CalculatorError.InvalidExpression :=
  ⟨by decide, c5_stack_underflow_invalid_expression.1 '+' [(1 : ℚ)] (by decide)⟩

/-- Claim C6: a scanned `'-'` is consumed as the sign of the following
literal — producing a single (negative) `Number` token from the negated
parse of the literal run — exactly when the claim's condition holds (first
character, i.e. no previous character, or previous character in
`( + - * /` or space, and next character an ASCII digit); in every other
position the `'-'` goes through the binary-operator branch. -/
theorem c6_unary_minus_condition :
    ∀ (prev : Option Char) (cs ops : List Char),
      (claimUnaryCond prev cs.head? →
        tokAux prev ('-' :: cs) ops =
          match parse_number true cs with
          | .error e => .error e
          | .ok (q, s) =>
            Except.map (fun t => RPNToken.Number q :: t)
              (tokAux (some (s.getLastD '-')) (cs.drop s.length) ops)) ∧
      (∀ (q : ℚ) (s : List Char), parse_number true cs = .ok (q, s) →
        q = -(litVal s)) ∧
      (¬ claimUnaryCond prev cs.head? →
        tokAux prev ('-' :: cs) ops =
          Except.map (fun t => (popOps '-' ops).1 ++ t)
            (tokAux (some '-') cs ('-' :: (popOps '-' ops).2))) := by
  intro prev cs ops
  refine ⟨?_, ?_, ?_⟩
  · intro h
    have hb := (claimUnary_iff prev cs).mp h
    rw [tokAux.eq_def]
    simp [hb]
  · intro q s h
    cases hscan : scanLit cs false with
    | error e => simp [parse_number, hscan] at h
    | ok s' =>
      by_cases hany : s'.any (·.isDigit) = true
      · simp [parse_number, hscan, hany] at h
        obtain ⟨hq, hs⟩ := h
        rw [← hq, hs]
      · rw [Bool.not_eq_true] at hany
        simp [parse_number, hscan, hany] at h
  · intro h
    have hb : (is_unary prev && nextIsDigit cs) = false := by
      rw [← Bool.not_eq_true]
      exact fun hu => h ((claimUnary_iff prev cs).mpr hu)
    rcases hp : popOps '-' ops with ⟨em, ops'⟩
    rw [tokAux.eq_def]
    simp [hb, hp]

/-- Witness for claim C6: after a space (with a digit following) the `'-'`
of `" -2"` is a sign; after the digit `'1'` the same `"-2"` suffix is a
binary subtraction. -/
theorem c6_unary_minus_condition_witness :
    claimUnaryCond (some ' ') (['2'].head?) ∧
      tokAux (some ' ') ['-', '2'] [] = Except.ok [RPNToken.Number (-2)] ∧
      ¬ claimUnaryCond (some '1') (['2'].head?) ∧
      tokAux (some '1') ['-', '2'] [] =
        Except.ok [RPNToken.Number 2, RPNToken.Operation '-'] := by
  have h1 := (c6_unary_minus_condition (some ' ') ['2'] []).1 (by decide)
  have h2 := (c6_unary_minus_condition (some '1') ['2'] []).2.2 (by decide)
  refine ⟨by decide, ?_, by decide, ?_⟩
  · rw [h1]
    simp [parse_number, scanLit, litVal, natOfDigits, tokAux, drainOps,
      Except.map]
  · rw [h2]
    simp [parse_number, scanLit, litVal, natOfDigits, tokAux, drainOps,
      popOps, precedence, Except.map]

/-- Claim C7: a second `'.'` inside a scanned literal makes the scan (and
hence `eval`) fail with `InvalidDecimal` — `eval("3.5.2")` does — while a
scanned run that parses as no number (a lone `'.'`) fails with
`InvalidExpression` — `eval(".")` does. -/
theorem c7_second_dot_and_lone_dot :
    (∀ s₁ s₂ rest : List Char,
        (∀ c ∈ s₁, c.isDigit = true) → (∀ c ∈ s₂, c.isDigit = true) →
        scanLit (s₁ ++ '.' :: (s₂ ++ '.' :: rest)) false =
          Except.error CalculatorError.InvalidDecimal) ∧
      (∀ rest : List Char, restOk rest →
        parse_number false ('.' :: rest) =
          Except.error CalculatorError.InvalidExpression) ∧
      Calculator.eval "3.5.2" = Except.error CalculatorError.InvalidDecimal ∧
      Calculator.eval "." = Except.error CalculatorError.InvalidExpression := by
  refine ⟨?_, ?_, ?_, ?_⟩
  · intro s₁ s₂ rest h1 h2
    induction s₁ with
    | nil => simp [scanLit, scanLit_second_dot s₂ rest h2]
    | cons c t ih =>
      have hc := h1 c (by simp)
      simp [scanLit, hc, ih (fun x hx => h1 x (List.mem_cons_of_mem c hx))]
  · intro rest hrest
    have hscan : scanLit rest true = Except.ok [] := by
      cases rest with
      | nil => rfl
      | cons c t =>
        simp only [restOk] at hrest
        push_neg at hrest
        simp [scanLit, hrest.1, hrest.2]
    simp [parse_number, scanLit, hscan]
  · simp [Calculator.eval, tokenizer, tokAux, parse_number, scanLit, litVal,
      natOfDigits, evalRPN, evalLoop, evalStep, drainOps, popOps, popUntilParen,
      precedence, is_unary, nextIsDigit, Except.map]
  · simp [Calculator.eval, tokenizer, tokAux, parse_number, scanLit, litVal,
      natOfDigits, evalRPN, evalLoop, evalStep, drainOps, popOps, popUntilParen,
      precedence, is_unary, nextIsDigit, Except.map]

/-- Witness for claim C7 at the literal `3.5.2` (digit runs `3` and `5`)
and at the lone-dot run `"."` with nothing following. -/
theorem c7_second_dot_witness :
    scanLit ['3', '.', '5', '.', '2'] false =
        Except.error CalculatorError.InvalidDecimal ∧
      parse_number false ['.'] =
        Except.error CalculatorError.InvalidExpression :=
  ⟨c7_second_dot_and_lone_dot.1 ['3'] ['5'] ['2'] (by decide) (by decide),
    c7_second_dot_and_lone_dot.2.1 [] trivial⟩

/-- Claim C8: a parenthesis marker left on the operator stack at the
post-scan drain fails with `MismatchedParantheses`; in particular an
unclosed `'('` as in `eval("(1+2")` does. -/
theorem c8_unmatched_open_paren :
    (∀ ops : List Char, ('(' ∈ ops ∨ ')' ∈ ops) →
        drainOps ops = Except.error CalculatorError.MismatchedParantheses) ∧
      Calculator.eval "(1+2" =
        Except.error CalculatorError.MismatchedParantheses := by
  refine ⟨drainOps_paren, ?_⟩
  simp [Calculator.eval, tokenizer, tokAux, parse_number, scanLit, litVal,
    natOfDigits, evalRPN, evalLoop, evalStep, drainOps, popOps, popUntilParen,
    precedence, is_unary, nextIsDigit, Except.map]

/-- Witness for claim C8 at the residual stack `['(']`. -/
theorem c8_unmatched_open_paren_witness :
    ('(' ∈ ['('] ∨ ')' ∈ ['(']) ∧
      drainOps ['('] = Except.error CalculatorError.MismatchedParantheses :=
  ⟨by decide, c8_unmatched_open_paren.1 ['('] (by decide)⟩

/-- Claim C9: when the final value stack is nonempty, `eval` returns the
most recently pushed value and never checks for residual values below it;
in particular `eval("1 2") = Ok(2.0)` rather than an error. -/
theorem c9_residual_stack_returns_top :
    (∀ (ts : List RPNToken) (v : ℚ) (st : List ℚ),
        evalLoop [] ts = Except.ok (v :: st) → evalRPN ts = Except.ok v) ∧
      Calculator.eval "1 2" = Except.ok 2 := by
  constructor
  · intro ts v st h
    rw [evalRPN, h]
  · simp [Calculator.eval, tokenizer, tokAux, parse_number, scanLit, litVal,
      natOfDigits, evalRPN, evalLoop, evalStep, drainOps, popOps, popUntilParen,
      precedence, is_unary, nextIsDigit, Except.map]

/-- Witness for claim C9 at the two-number token sequence of `"1 2"`. -/
theorem c9_residual_stack_witness :
    evalLoop [] [RPNToken.Number 1, RPNToken.Number 2] = Except.ok [2, 1] ∧
      evalRPN [RPNToken.Number 1, RPNToken.Number 2] = Except.ok 2 :=
  ⟨rfl, c9_residual_stack_returns_top.1 _ 2 [1] rfl⟩

/-- Claim C10: the literal `-0` parses to the rational zero (the model of
IEEE `-0.0`, which compares equal to `0.0` under the guard's equality), a
division step with divisor `-0` fails with `ZeroDivision` rather than
producing a negative infinity, and evaluating the expression `1/(-0)`
written as the four characters `1`, `/`, `-`, `0` fails with
`ZeroDivision`. -/
theorem c10_negative_zero_divisor :
    parse_number true ['0'] = Except.ok (0, ['0']) ∧
      (∀ (a : ℚ) (st : List ℚ),
        evalStep ((-0 : ℚ) :: a :: st) (RPNToken.Operation '/') =
          Except.error CalculatorError.ZeroDivision) ∧
      Calculator.eval "1/-0" = Except.error CalculatorError.ZeroDivision := by
  refine ⟨?_, ?_, ?_⟩
  · simp [parse_number, scanLit, litVal, natOfDigits]
  · intro a st
    simp [evalStep]
  · simp [Calculator.eval, tokenizer, tokAux, parse_number, scanLit, litVal,
      natOfDigits, evalRPN, evalLoop, evalStep, drainOps, popOps, popUntilParen,
      precedence, is_unary, nextIsDigit, Except.map]
